import Mathlib

/-
  Verification development for the FUSE mount layer of wimlib (src/src/mount.c).

  The C code is shallowly embedded: lookup-table entries, open file handles and
  dentries become Lean structures; pointers become numeric identities (lte_id,
  fd_id, dentry index); the hash-indexed lookup table becomes a list of entries
  searched by hash; machine integers become Nat (the u16 fd-table limit 0xffff
  is kept explicitly).  Operating-system effects (creat, open, close, truncate,
  extraction of an archive resource, SHA1 of a staging file) are parameters of
  the embedded functions: a Bool or oracle function says whether the call
  succeeds, and freshly generated names / hashes / ids are passed in.

  Outcomes of a C function are modelled by CResult: ok, err (a returned
  negative error code), or crash, which stands for undefined behaviour or a
  fatal assertion: reading past the end of an fd array, dereferencing a NULL
  dentry pointer, a wimlib_assert failure (wimlib_assert is defined in
  wimlib_internal.h, which is not part of the sources here; the specification,
  section 7, says assertion failures are fatal, and the embedding follows
  that), or a loop that provably never terminates.
-/

/-- Outcome of an embedded C function: normal return value, returned error
code, or crash (undefined behaviour, fatal assertion, or nontermination). -/
inductive CResult (α : Type) where
  | ok : α → CResult α
  | err : Int → CResult α
  | crash : CResult α
deriving DecidableEq, Repr

def CResult.isErr : CResult α → Bool
  | .err _ => true
  | _ => false

def CResult.isOk : CResult α → Bool
  | .ok _ => true
  | _ => false

/- errno values used by mount.c (from errno.h). -/
def ENOENT : Int := 2
def EIO_val : Int := 5
def ENOMEM : Int := 12
def EEXIST : Int := 17
def ENOTDIR : Int := 20
def EMFILE : Int := 24
def EOVERFLOW : Int := 75

/- wimlib error codes (the enum lives in wimlib.h, not among the sources;
only distinctness of the values matters here). -/
def WIMLIB_ERR_WRITE : Int := 46
def WIMLIB_ERR_NOTDIR : Int := 37
def WIMLIB_ERR_DELETE_STAGING_DIR : Int := 13

/-- struct wimlib_fd (mount.c lines 48-54).  fd_id models the pointer identity
of the heap-allocated struct; dentry is the index of the owning dentry in the
mount state (none models a NULL dentry pointer, as set by remove_dentry);
lte is the back-pointer to the owning lookup table entry, by lte_id. -/
structure wimlib_fd where
  fd_id : Nat
  idx : Nat
  staging_fd : Int
  dentry : Option Nat
  lte : Nat
deriving DecidableEq, Repr

/-- struct lookup_table_entry, the fields used by mount.c: content hash,
reference count, resource_entry.original_size, staging path (none when the
stream is archive-backed), and the fd table.  lte_id models pointer
identity. -/
structure lookup_table_entry where
  lte_id : Nat
  hash : Nat
  refcnt : Nat
  original_size : Nat
  staging_file_name : Option Nat
  num_allocated_fds : Nat
  num_opened_fds : Nat
  fds : List (Option wimlib_fd)
deriving DecidableEq, Repr

/-- struct dentry, the fields these claims need: primary stream hash, the
hashes of the alternate data stream entries, the hard link group id, and the
four timestamps of the specification (section 3: created / accessed /
modified / metadata). -/
structure dentry where
  hash : Nat
  ads_hashes : List Nat
  hard_link : Nat
  creation_time : Nat
  last_access_time : Nat
  last_write_time : Nat
  last_metadata_change_time : Nat
deriving DecidableEq, Repr

/-- The mutable in-memory state of a mount: the reachable dentries (as a flat
list; position in the list models the pointer identity of a dentry) and the
lookup table (catalog). -/
structure MountState where
  dentries : List dentry
  lookup_table : List lookup_table_entry
deriving DecidableEq, Repr

/-- __lookup_resource (lookup_table.c, declared in lookup_table.h): find the
lookup table entry with the given content hash.  Modelled from the spec:
the catalog is a hash-indexed mapping from content hash to lookup entry. -/
def __lookup_resource (tbl : List lookup_table_entry) (h : Nat) :
    Option lookup_table_entry :=
  tbl.find? (fun e => e.hash == h)

/-- lookup_table_remove / free of a specific entry: drop the first entry with
the given identity.  Modelled from the spec: removal of an entry from the
hash-indexed catalog. -/
def removeById (tbl : List lookup_table_entry) (i : Nat) :
    List lookup_table_entry :=
  match tbl with
  | [] => []
  | e :: r => if e.lte_id = i then r else e :: removeById r i

/-- In-place mutation of the entry with the given identity (a C pointer
write seen through the table). -/
def replaceById (tbl : List lookup_table_entry) (i : Nat)
    (e2 : lookup_table_entry) : List lookup_table_entry :=
  match tbl with
  | [] => []
  | e :: r => if e.lte_id = i then e2 :: r else e :: replaceById r i e2

/-- lookup_table_unlink of the entry found under a hash key: drop the first
entry with that hash.  Modelled from the spec (section 3): the catalog maps
each content hash to one entry. -/
def removeByHash (tbl : List lookup_table_entry) (h : Nat) :
    List lookup_table_entry :=
  match tbl with
  | [] => []
  | e :: r => if e.hash = h then r else e :: removeByHash r h

/-- existing->refcnt++ on the entry found under a hash key. -/
def bumpRefcnt (tbl : List lookup_table_entry) (h : Nat) :
    List lookup_table_entry :=
  match tbl with
  | [] => []
  | e :: r =>
    if e.hash = h then {e with refcnt := e.refcnt + 1} :: r
    else e :: bumpRefcnt r h

/-- The effective streams of a dentry: the primary stream hash followed by the
hashes of all its ADS entries (spec section 3). -/
def streamHashes (d : dentry) : List Nat :=
  d.hash :: d.ads_hashes

/-- Executable check of the refcount invariant of the specification
(section 8): for every lookup entry E in the catalog, E.refcnt equals the
number of (dentry, effective stream) pairs whose hash is E.hash. -/
def refcntHolds (st : MountState) : Bool :=
  st.lookup_table.all (fun e =>
    e.refcnt == ((st.dentries.map streamHashes).flatten.count e.hash))

/-- dentry_link_group_size (dentry.c, not among the sources).  Modelled from
the spec (section 4.3 step 3): the number of dentries sharing the hard link
group of the given dentry.  The per-stream-position qualifier of the spec
coincides with this count for the primary-stream uses made below, since all
members of a link group share the primary hash (spec section 8). -/
def dentry_link_group_size (dentries : List dentry) (d : dentry) : Nat :=
  (dentries.filter (fun x => x.hard_link == d.hard_link)).length

/-- dentry_update_all_timestamps (dentry.c, not among the sources).  Modelled
from the spec (sections 3 and 4.5): refresh all four timestamps of the dentry
to the current time. -/
def dentry_update_all_timestamps (now : Nat) (d : dentry) : dentry :=
  {d with creation_time := now, last_access_time := now,
          last_write_time := now, last_metadata_change_time := now}

/-- First free slot of an fd array (the unbounded search loop of
alloc_wimlib_fd, mount.c lines 114-127). -/
def findFirstNone : List (Option wimlib_fd) → Option Nat
  | [] => none
  | none :: _ => some 0
  | some _ :: rest => (findFirstNone rest).map (· + 1)

/-- The tail of alloc_wimlib_fd after the capacity check: find the lowest free
index, allocate the handle there (CALLOC gives staging_fd  -1 via the explicit
assignment, dentry NULL), and bump num_opened_fds.  If the search loop finds
no free slot it runs past the end of the array: crash. -/
def allocFirstFree (new_fd_id : Nat) (lte : lookup_table_entry) :
    CResult (lookup_table_entry × wimlib_fd) :=
  match findFirstNone lte.fds with
  | none => .crash
  | some i =>
    let fd : wimlib_fd :=
      {fd_id := new_fd_id, idx := i, staging_fd := -1, dentry := none,
       lte := lte.lte_id}
    .ok ({lte with fds := lte.fds.set i (some fd),
                   num_opened_fds := lte.num_opened_fds + 1}, fd)

/-- alloc_wimlib_fd (mount.c lines 90-128).  mem_ok models the success of the
two CALLOC calls; new_fd_id is the pointer identity of the fresh handle. -/
def alloc_wimlib_fd (new_fd_id : Nat) (mem_ok : Bool)
    (lte : lookup_table_entry) : CResult (lookup_table_entry × wimlib_fd) :=
  if lte.num_opened_fds = lte.num_allocated_fds then
    if lte.num_allocated_fds = 65535 then .err (-EMFILE)
    else if ¬ mem_ok then .err (-ENOMEM)
    else
      let num_new := min 8 (65535 - lte.num_allocated_fds)
      allocFirstFree new_fd_id
        {lte with fds := lte.fds ++ List.replicate num_new none,
                  num_allocated_fds := lte.num_allocated_fds + num_new}
  else if ¬ mem_ok then .err (-ENOMEM)
  else allocFirstFree new_fd_id lte

/-- The tail of close_wimlib_fd: decrement num_opened_fds, free the entry when
both counts are zero (result none), null the handle slot, free the handle. -/
def close_finish (lte : lookup_table_entry) (fd : wimlib_fd) :
    CResult (Option lookup_table_entry) :=
  if lte.num_opened_fds - 1 = 0 ∧ lte.refcnt = 0 then .ok none
  else .ok (some {lte with num_opened_fds := lte.num_opened_fds - 1,
                           fds := lte.fds.set fd.idx none})

/-- close_wimlib_fd (mount.c lines 130-147).  close_errno models the close
syscall: none is success, some e is failure with that errno.  The two
wimlib_assert calls are fatal (spec section 7), hence crash. -/
def close_wimlib_fd (close_errno : Int → Option Int)
    (lte : lookup_table_entry) (fd : wimlib_fd) :
    CResult (Option lookup_table_entry) :=
  if lte.num_opened_fds = 0 then .crash
  else if lte.staging_file_name.isSome then
    if fd.staging_fd = -1 then .crash
    else
      match close_errno fd.staging_fd with
      | some e => .err (-e)
      | none => close_finish lte fd
  else close_finish lte fd

/-- Evaluates fd->dentry->hard_link == dentry->hard_link (the membership test
of the split loops, mount.c lines 319-321 and 336-338).  none models the
crash of dereferencing a NULL or dangling dentry pointer. -/
def fd_matches_group (dentries : List dentry) (hl : Nat) (fd : wimlib_fd) :
    Option Bool :=
  match fd.dentry with
  | none => none
  | some di =>
    match dentries.get? di with
    | none => none
    | some d => some (d.hard_link == hl)

/-- The counting loop of extract_resource_to_staging_dir (mount.c lines
317-325): how many open handles of the old entry belong to the diverging
hard link group.  This loop is bounded by num_allocated_fds, so it runs over
exactly the fd array.  none models a crash on a NULL dentry pointer. -/
def count_transferable_fds (dentries : List dentry) (hl : Nat) :
    List (Option wimlib_fd) → Option Nat
  | [] => some 0
  | none :: rest => count_transferable_fds dentries hl rest
  | some fd :: rest =>
    match fd_matches_group dentries hl fd with
    | none => none
    | some b =>
      match count_transferable_fds dentries hl rest with
      | none => none
      | some c => some (if b then c + 1 else c)

/-- The transfer loop of extract_resource_to_staging_dir (mount.c lines
335-348): for (u16 i = 0, j = 0; ; i++).  The loop has no bound on i: it
only stops when j reaches k matches.  Running out of array (the [] case
while matches are still expected) is a read past the end of the fd array:
none, a crash.  A matching handle is nulled in the old array and placed at
the next compact index j of the new entry with its back-pointer retargeted;
when j reaches k the loop breaks, leaving the rest of the old array as is. -/
def transfer_fds (dentries : List dentry) (hl new_id : Nat) :
    List (Option wimlib_fd) → Nat → Nat →
    Option (List (Option wimlib_fd) × List wimlib_fd)
  | [], _, _ => none
  | none :: rest, j, k =>
    match transfer_fds dentries hl new_id rest j k with
    | none => none
    | some (o, n) => some (none :: o, n)
  | some fd :: rest, j, k =>
    match fd_matches_group dentries hl fd with
    | none => none
    | some b =>
      if b then
        let fd2 := {fd with lte := new_id, idx := j}
        if j + 1 = k then some (none :: rest, [fd2])
        else
          match transfer_fds dentries hl new_id rest (j + 1) k with
          | none => none
          | some (o, n) => some (none :: o, fd2 :: n)
      else
        match transfer_fds dentries hl new_id rest j k with
        | none => none
        | some (o, n) => some (some fd :: o, n)

/-- extract_resource_to_staging_dir (mount.c lines 254-373).  io_ok models
create_staging_file, extract_resource_to_fd and the close of the staging fd
(failure takes the out_delete_staging_file path); mem_ok models
new_lookup_table_entry and the MALLOC of the new fd array; new_path is the
staging file name generated by create_staging_file; new_hash is the random
placeholder hash from randomize_byte_array; new_id the identity of the fresh
entry.  Returns the updated lookup table and the entry stored through the
lte out-parameter.  The wimlib_assert on line 309 is fatal (spec section 7). -/
def extract_resource_to_staging_dir (dentries : List dentry)
    (tbl : List lookup_table_entry) (d : dentry)
    (old : Option lookup_table_entry) (size : Nat)
    (new_id new_hash new_path : Nat) (io_ok mem_ok : Bool) :
    CResult (List lookup_table_entry × lookup_table_entry) :=
  if ¬ io_ok then .err (-EIO_val)
  else
    let gs := dentry_link_group_size dentries d
    match old with
    | some o =>
      if gs = o.refcnt then
        let nl := {o with original_size := size, refcnt := gs,
                          hash := new_hash, staging_file_name := some new_path}
        .ok (nl :: removeById tbl o.lte_id, nl)
      else if ¬ (o.refcnt > gs) then .crash
      else if ¬ mem_ok then .err (-ENOMEM)
      else
        match count_transferable_fds dentries d.hard_link o.fds with
        | none => .crash
        | some k =>
          match transfer_fds dentries d.hard_link new_id o.fds 0 k with
          | none => .crash
          | some (oslots, moved) =>
            let o2 := {o with fds := oslots, refcnt := o.refcnt - gs,
                              num_opened_fds := o.num_opened_fds - k}
            let nl : lookup_table_entry :=
              {lte_id := new_id, hash := new_hash, refcnt := gs,
               original_size := size, staging_file_name := some new_path,
               num_allocated_fds := k, num_opened_fds := k,
               fds := moved.map some}
            .ok (nl :: replaceById tbl o.lte_id o2, nl)
    | none =>
      if ¬ mem_ok then .err (-ENOMEM)
      else
        let nl : lookup_table_entry :=
          {lte_id := new_id, hash := new_hash, refcnt := gs,
           original_size := size, staging_file_name := some new_path,
           num_allocated_fds := 0, num_opened_fds := 0, fds := []}
        .ok (nl :: tbl, nl)

/-- wimfs_truncate (mount.c lines 1232-1260).  Path resolution
(lookup_resource, lookup.c, not among the sources) is modelled from the spec,
section 4.1: the caller resolves to the dentry at index di and the primary
stream; the lookup entry is the catalog entry under the dentry hash.
trunc_ok models the truncate syscall on the staging file; now is the clock at
the moment of the call, consumed by dentry_update_all_timestamps.  Note that
the code never writes the hash of the new lookup entry back into the dentry
hash slot after the divergence.  On a failed divergence the C code still
updates the in-memory timestamps before returning the error; the err outcome
here carries no state, so that side effect of the error path is not
represented (no theorem below concerns the error path). -/
def wimfs_truncate (st : MountState) (di : Nat) (size : Nat) (now : Nat)
    (new_id new_hash new_path : Nat) (io_ok mem_ok trunc_ok : Bool) :
    CResult MountState :=
  match st.dentries.get? di with
  | none => .err (-ENOENT)
  | some d =>
    match __lookup_resource st.lookup_table d.hash with
    | none => .ok st
    | some lte =>
      if lte.staging_file_name.isSome then
        if ¬ trunc_ok then .err (-EIO_val)
        else
          let d2 := dentry_update_all_timestamps now d
          let tbl2 := replaceById st.lookup_table lte.lte_id
            {lte with original_size := size}
          .ok {dentries := st.dentries.set di d2, lookup_table := tbl2}
      else
        match extract_resource_to_staging_dir st.dentries st.lookup_table d
              (some lte) size new_id new_hash new_path io_ok mem_ok with
        | .crash => .crash
        | .err e => .err e
        | .ok (tbl2, _) =>
          let d2 := dentry_update_all_timestamps now d
          .ok {dentries := st.dentries.set di d2, lookup_table := tbl2}

/-- wimfs_ftruncate (mount.c lines 786-795).  The handle carries the identity
of its lookup entry; ftrunc_ok models the ftruncate syscall on the staging
fd.  now is the clock at the moment of the call: the source never reads it
(no timestamp is touched by this callback).  The dangling-entry guard is an
artifact of the pointer embedding and is unreachable for handles whose entry
is in the catalog. -/
def wimfs_ftruncate (st : MountState) (fd_lte : Nat) (size : Nat)
    (_now : Nat) (ftrunc_ok : Bool) : CResult MountState :=
  if ¬ ftrunc_ok then .err (-1)
  else
    match st.lookup_table.find? (fun e => e.lte_id == fd_lte) with
    | none => .crash
    | some lte =>
      let tbl2 := replaceById st.lookup_table fd_lte
        {lte with original_size := size}
      .ok {st with lookup_table := tbl2}

/-- The four timestamps of a dentry, in spec order (created, accessed,
modified, metadata). -/
def timestampsOf (d : dentry) : Nat × Nat × Nat × Nat :=
  (d.creation_time, d.last_access_time, d.last_write_time,
   d.last_metadata_change_time)

/-- wimfs_read (mount.c lines 995-1044).  The handle argument is none for the
null handle of an empty file on a read-only mount (fi->fh == 0); otherwise it
carries the handle and its lookup entry.  staging_read models the
lseek-and-read path on a staging file; read_res_ok models read_resource on
the archive (false gives the -EIO return).  The wimlib_assert on the staging
fd is fatal (spec section 7). -/
def wimfs_read (staging_read : Nat → Nat → CResult Nat) (read_res_ok : Bool)
    (fdOpt : Option (wimlib_fd × lookup_table_entry)) (size offset : Nat) :
    CResult Nat :=
  match fdOpt with
  | none => .ok 0
  | some (fd, lte) =>
    match lte.staging_file_name with
    | some _ =>
      if fd.staging_fd = -1 then .crash
      else staging_read size offset
    | none =>
      if offset > lte.original_size then .err (-EOVERFLOW)
      else
        let sz := min size (lte.original_size - offset)
        if read_res_ok then .ok sz else .err (-EIO_val)

/-- The body of the close_lte_fds scan: walks the given prefix of the fd
array, closing every staging fd it meets.  Returns the list of staging fds
that were closed; a failing close returns WIMLIB_ERR_WRITE. -/
def close_fds_scan (close_errno : Int → Option Int) :
    List (Option wimlib_fd) → CResult (List Int)
  | [] => .ok []
  | none :: rest => close_fds_scan close_errno rest
  | some fd :: rest =>
    if fd.staging_fd = -1 then close_fds_scan close_errno rest
    else
      match close_errno fd.staging_fd with
      | some _ => .err WIMLIB_ERR_WRITE
      | none =>
        match close_fds_scan close_errno rest with
        | .ok l => .ok (fd.staging_fd :: l)
        | .err e => .err e
        | .crash => .crash

/-- close_lte_fds (mount.c lines 609-621).  The loop runs
for (u16 i = 0; i < lte->num_opened_fds; i++): it scans only the first
num_opened_fds slots of the fd array, not all num_allocated_fds slots.
Reading past the end of the allocated array would be undefined behaviour:
crash. -/
def close_lte_fds (close_errno : Int → Option Int)
    (lte : lookup_table_entry) : CResult (List Int) :=
  if lte.num_opened_fds > lte.fds.length then .crash
  else close_fds_scan close_errno (lte.fds.take lte.num_opened_fds)

/-- All open staging fds of an entry (what the specification, section 4.7
step 3, requires to be closed before the commit pipeline rehashes). -/
def openStagingFds (lte : lookup_table_entry) : List Int :=
  lte.fds.filterMap (fun s =>
    s.bind (fun fd => if fd.staging_fd = -1 then none else some fd.staging_fd))

/-- wimfs_destroy (mount.c lines 703-776), the part after the commit message
has been received: readwrite and commit are the mount flag and the received
byte; chdir_ok models chdir(working_directory); rebuild_status is the result
of rebuild_wim; delete_ok models delete_staging_dir.  Returns the status
byte sent back to the unmount driver and whether delete_staging_dir was
invoked.  When chdir fails the code sets status = WIMLIB_ERR_NOTDIR and
jumps to the done label, past the staging-directory removal. -/
def wimfs_destroy (readwrite commit : Bool) (chdir_ok : Bool)
    (rebuild_status : Int) (delete_ok : Bool) : Int × Bool :=
  if readwrite then
    if commit then
      if ¬ chdir_ok then (WIMLIB_ERR_NOTDIR, false)
      else
        let status := rebuild_status
        let ret : Int := if delete_ok then 0 else WIMLIB_ERR_DELETE_STAGING_DIR
        (if ret ≠ 0 ∧ status = 0 then ret else status, true)
    else
      let ret : Int := if delete_ok then 0 else WIMLIB_ERR_DELETE_STAGING_DIR
      (if ret ≠ 0 then ret else 0, true)
  else (0, false)

/-- One iteration of the while loop of calculate_sha1sum_for_staging_file
(mount.c lines 634-657), acting on one effective-stream hash slot of the
dentry.  sha1 models sha1sum over the staging file named by the path; the
result overwrites the entry hash in place, the entry is unlinked from the
catalog, the dentry hash slot receives the new hash (the memcpy), and the
entry is either merged into an existing entry with the same new hash
(free + refcnt++) or reinserted.  Slots that are absent from the catalog or
not staged are left alone.  Returns the new slot value and catalog. -/
def sha1_step (sha1 : Nat → Except Int Nat) (tbl : List lookup_table_entry)
    (slot : Nat) : Except Int (Nat × List lookup_table_entry) :=
  match __lookup_resource tbl slot with
  | none => .ok (slot, tbl)
  | some lte =>
    match lte.staging_file_name with
    | none => .ok (slot, tbl)
    | some p =>
      match sha1 p with
      | .error e => .error e
      | .ok nh =>
        let tbl1 := removeByHash tbl slot
        match __lookup_resource tbl1 nh with
        | some _ => .ok (nh, bumpRefcnt tbl1 nh)
        | none => .ok (nh, {lte with hash := nh} :: tbl1)

/-- The while loop of calculate_sha1sum_for_staging_file over the list of
effective-stream hash slots (primary first, then each ADS entry). -/
def sha1_loop (sha1 : Nat → Except Int Nat) :
    List Nat → List lookup_table_entry →
    Except Int (List Nat × List lookup_table_entry)
  | [], tbl => .ok ([], tbl)
  | s :: rest, tbl =>
    match sha1_step sha1 tbl s with
    | .error e => .error e
    | .ok (s2, tbl2) =>
      match sha1_loop sha1 rest tbl2 with
      | .error e => .error e
      | .ok (l, tbl3) => .ok (s2 :: l, tbl3)

/-- calculate_sha1sum_for_staging_file (mount.c lines 628-664): run the loop
over the primary hash slot and every ADS hash slot of the dentry, writing
the new hashes back into the dentry. -/
def calculate_sha1sum_for_staging_file (sha1 : Nat → Except Int Nat)
    (d : dentry) (tbl : List lookup_table_entry) :
    Except Int (dentry × List lookup_table_entry) :=
  match sha1_loop sha1 (streamHashes d) tbl with
  | .error e => .error e
  | .ok (slots, tbl2) =>
    match slots with
    | h :: ads => .ok ({d with hash := h, ads_hashes := ads}, tbl2)
    | [] => .ok (d, tbl2)

/-- Index of the slot holding the handle with the given pointer identity. -/
def findSlotByFdId (fds : List (Option wimlib_fd)) (fid : Nat) : Option Nat :=
  fds.findIdx? (fun s =>
    match s with
    | some fd => fd.fd_id == fid
    | none => false)

/-- fd->dentry = dentry in wimfs_open (mount.c line 949): the handle object
gains its dentry pointer; seen through the entry, the slot holding the
handle is updated too. -/
def open_fd_registered (lte1 : lookup_table_entry) (fd0 : wimlib_fd)
    (di : Nat) : lookup_table_entry × wimlib_fd :=
  let fd1 := {fd0 with dentry := some di}
  ({lte1 with fds := lte1.fds.set fd0.idx (some fd1)}, fd1)

/-- fd->staging_fd = (the native fd returned by open) , written through the
slot that currently holds the handle (located by pointer identity). -/
def setStagingFd (st : MountState) (lte : lookup_table_entry) (fid : Nat)
    (nfd : Int) : Option MountState :=
  match findSlotByFdId lte.fds fid with
  | none => none
  | some i =>
    match lte.fds.get? i with
    | some (some fd) =>
      let lte2 := {lte with fds := lte.fds.set i (some {fd with staging_fd := nfd})}
      some {st with lookup_table := replaceById st.lookup_table lte.lte_id lte2}
    | _ => none

/-- The tail of wimfs_open (mount.c lines 965-973): if the entry is staged,
open the staging file (staging_open: some n is a native fd, none is
failure).  On failure the code calls close_wimlib_fd(fd) and then returns
-errno; under the fatal-assertion model the close crashes first, because the
entry is staged while fd->staging_fd is still -1.  The open_errno parameter
is the errno a failed open would leave for the return. -/
def wimfs_open_staging (st : MountState) (lte : lookup_table_entry)
    (fd : wimlib_fd) (staging_open : Option Int) (open_errno : Int)
    (close_errno : Int → Option Int) : CResult Unit × MountState :=
  match lte.staging_file_name with
  | none => (.ok (), st)
  | some _ =>
    match staging_open with
    | some nfd =>
      match setStagingFd st lte fd.fd_id nfd with
      | some st2 => (.ok (), st2)
      | none => (.crash, st)
    | none =>
      match close_wimlib_fd close_errno lte fd with
      | .crash => (.crash, st)
      | .err e => (.err e, st)
      | .ok olte =>
        let tbl2 :=
          match olte with
          | none => removeById st.lookup_table lte.lte_id
          | some l2 => replaceById st.lookup_table lte.lte_id l2
        (.err (-open_errno), {st with lookup_table := tbl2})

/-- The middle of wimfs_open (mount.c lines 945-964): allocate the handle on
the entry, set its dentry pointer, and if the open is for writing while the
entry is still archive-backed, run the staging divergence and write the new
placeholder hash into the dentry hash slot (the memcpy on line 963), then
proceed to the staging-file open. -/
def wimfs_open_alloc_and_stage (st : MountState) (di : Nat)
    (lte : lookup_table_entry) (writable : Bool)
    (new_fd_id new_id new_hash new_path : Nat) (io_ok mem_ok : Bool)
    (staging_open : Option Int) (open_errno : Int)
    (close_errno : Int → Option Int) : CResult Unit × MountState :=
  match alloc_wimlib_fd new_fd_id mem_ok lte with
  | .crash => (.crash, st)
  | .err e => (.err e, st)
  | .ok (lte1, fd0) =>
    let reg := open_fd_registered lte1 fd0 di
    let lte2 := reg.fst
    let fd1 := reg.snd
    let st1 := {st with lookup_table :=
                  replaceById st.lookup_table lte2.lte_id lte2}
    if writable ∧ lte2.staging_file_name = none then
      match st1.dentries.get? di with
      | none => (.crash, st1)
      | some d1 =>
        match extract_resource_to_staging_dir st1.dentries st1.lookup_table d1
              (some lte2) lte2.original_size new_id new_hash new_path
              io_ok mem_ok with
        | .crash => (.crash, st1)
        | .err e => (.err e, st1)
        | .ok (tbl2, nl) =>
          let st2 : MountState :=
            {dentries := st1.dentries.set di {d1 with hash := nl.hash},
             lookup_table := tbl2}
          wimfs_open_staging st2 nl fd1 staging_open open_errno close_errno
    else wimfs_open_staging st1 lte2 fd1 staging_open open_errno close_errno

/-- wimfs_open (mount.c lines 915-974).  Path resolution (lookup_resource) is
modelled from the spec, section 4.1: the call resolves to the dentry at
index di and its primary stream hash slot.  A missing catalog entry on a
read-only mount yields the null handle (fi->fh = 0); on a read-write mount
an empty staging file is materialized first (size 0) and the placeholder
hash is written into the dentry hash slot. -/
def wimfs_open (st : MountState) (di : Nat) (writable readwrite : Bool)
    (new_fd_id new_id new_hash new_path : Nat) (io_ok mem_ok : Bool)
    (staging_open : Option Int) (open_errno : Int)
    (close_errno : Int → Option Int) : CResult Unit × MountState :=
  match st.dentries.get? di with
  | none => (.err (-ENOENT), st)
  | some d =>
    match __lookup_resource st.lookup_table d.hash with
    | none =>
      if ¬ readwrite then (.ok (), st)
      else
        match extract_resource_to_staging_dir st.dentries st.lookup_table d
              none 0 new_id new_hash new_path io_ok mem_ok with
        | .crash => (.crash, st)
        | .err e => (.err e, st)
        | .ok (tbl1, nl) =>
          let st1 : MountState :=
            {dentries := st.dentries.set di {d with hash := nl.hash},
             lookup_table := tbl1}
          wimfs_open_alloc_and_stage st1 di nl writable new_fd_id new_id
            new_hash new_path io_ok mem_ok staging_open open_errno close_errno
    | some lte =>
      wimfs_open_alloc_and_stage st di lte writable new_fd_id new_id
        new_hash new_path io_ok mem_ok staging_open open_errno close_errno

/-- A node of the directory tree for the path-level callbacks: name (as the
utf8 character list file_name_utf8), the directory attribute bit, and the
circular child list as a Lean list. -/
inductive Dnode where
  | mk : List Char → Bool → List Dnode → Dnode

def Dnode.name : Dnode → List Char
  | .mk n _ _ => n

def Dnode.isDir : Dnode → Bool
  | .mk _ b _ => b

def Dnode.children : Dnode → List Dnode
  | .mk _ _ c => c

/-- Split a path on forward slashes (helper for the path walk). -/
def splitSlashes (cur : List Char) : List Char → List (List Char)
  | [] => [cur.reverse]
  | c :: rest =>
    if c = '/' then cur.reverse :: splitSlashes [] rest
    else splitSlashes (c :: cur) rest

/-- The non-empty components of a path. -/
def pathComponents (p : List Char) : List (List Char) :=
  (splitSlashes [] p).filter (fun c => ¬ c.isEmpty)

/-- path_basename (util.c, not among the sources).  Modelled from the spec:
the final component of the path. -/
def path_basename (p : List Char) : List Char :=
  (pathComponents p).getLastD []

/-- get_dentry (dentry.c, not among the sources).  Modelled from the spec,
section 4.1: walk the tree from the root along the path components. -/
def get_dentry : List (List Char) → Dnode → Option Dnode
  | [], d => some d
  | comp :: rest, d =>
    match d.children.find? (fun c => c.name == comp) with
    | none => none
    | some ch => get_dentry rest ch

/-- get_dentry_child_with_name (dentry.c, not among the sources).  Modelled
from the spec: the child of the dentry carrying exactly the given name. -/
def get_dentry_child_with_name (d : Dnode) (name : List Char) : Option Dnode :=
  d.children.find? (fun c => c.name == name)

/-- link_dentry of a fresh child under the node reached by the given
components (the functional image of the pointer write). -/
def linkAt : List (List Char) → Dnode → Dnode → Option Dnode
  | [], d, c => some (Dnode.mk d.name d.isDir (c :: d.children))
  | comp :: rest, d, c =>
    match d.children.findIdx? (fun x => x.name == comp) with
    | none => none
    | some i =>
      match d.children.get? i with
      | none => none
      | some ch =>
        match linkAt rest ch c with
        | none => none
        | some ch2 => some (Dnode.mk d.name d.isDir (d.children.set i ch2))

/-- wimfs_mknod (mount.c lines 873-911), on a mount without the Windows
stream interface (so the ADS branch is not taken).  mem_ok models
new_dentry.  Note the duplicate check on line 902 passes the whole path
string to get_dentry_child_with_name, not the basename computed on the line
above it. -/
def wimfs_mknod (root : Dnode) (path : List Char) (mem_ok : Bool) :
    CResult Dnode :=
  let parentComps := (pathComponents path).dropLast
  match get_dentry parentComps root with
  | none => .err (-ENOENT)
  | some parent =>
    if ¬ parent.isDir then .err (-ENOTDIR)
    else
      let basename := path_basename path
      match get_dentry_child_with_name parent path with
      | some _ => .err (-EEXIST)
      | none =>
        if ¬ mem_ok then .err (-ENOMEM)
        else
          match linkAt parentComps root (Dnode.mk basename false []) with
          | some root2 => .ok root2
          | none => .crash

/-- The names of the children of the node reached by the given components
(observer used to state properties of mknod results). -/
def childNamesAt (comps : List (List Char)) (root : Dnode) :
    Option (List (List Char)) :=
  (get_dentry comps root).map (fun d => d.children.map Dnode.name)

/-- Walks an fd array starting at absolute index i and checks that every
occupied slot holds a handle whose back-pointer is the given entry identity
and whose stored index is its own position. -/
def slotsOk (eid : Nat) : Nat → List (Option wimlib_fd) → Bool
  | _, [] => true
  | i, none :: rest => slotsOk eid (i + 1) rest
  | i, some fd :: rest =>
    fd.lte == eid && fd.idx == i && slotsOk eid (i + 1) rest

/-- Executable check of the fd-slot invariant of the specification
(section 8): for every index i below num_allocated_fds, the slot is null or
holds a handle with back-pointer this entry and stored index i. -/
def slotInvB (e : lookup_table_entry) : Bool :=
  e.fds.length == e.num_allocated_fds && slotsOk e.lte_id 0 e.fds

/- Concrete scenario constants used by the closed theorems below. -/

/-- A regular-file dentry whose only stream is archive-backed under hash 10;
its hard link group has exactly one member. -/
def archDentry : dentry :=
  {hash := 10, ads_hashes := [], hard_link := 0, creation_time := 1,
   last_access_time := 2, last_write_time := 3, last_metadata_change_time := 4}

/-- An archive-backed catalog entry for hash 10 shared by two hard link
groups (refcnt 2) with no open handles. -/
def sharedArchEntry : lookup_table_entry :=
  {lte_id := 0, hash := 10, refcnt := 2, original_size := 42,
   staging_file_name := none, num_allocated_fds := 0, num_opened_fds := 0,
   fds := []}

/-- The same entry referenced only by the one dentry (refcnt 1). -/
def soloArchEntry : lookup_table_entry := {sharedArchEntry with refcnt := 1}

/-- A mount state with one reachable dentry and its archive-backed entry. -/
def soloState : MountState :=
  {dentries := [archDentry], lookup_table := [soloArchEntry]}

/-- The state produced by the embedded wimfs_truncate on soloState: the
entry was rekeyed to the random placeholder hash 99 and staged, but the
dentry hash slot still reads 10. -/
def truncPost : MountState :=
  {dentries := [dentry_update_all_timestamps 777 archDentry],
   lookup_table := [{lte_id := 0, hash := 99, refcnt := 1, original_size := 5,
                     staging_file_name := some 3, num_allocated_fds := 0,
                     num_opened_fds := 0, fds := []}]}

/-- An open handle whose staging fd is 7, sitting at slot index 1. -/
def holeFd : wimlib_fd :=
  {fd_id := 3, idx := 1, staging_fd := 7, dentry := some 0, lte := 5}

/-- A staged entry whose single open handle sits at slot 1 while slot 0 is
free (the handle formerly at slot 0 was closed): num_opened_fds is 1 but
the open handle lives at index 1. -/
def holeEntry : lookup_table_entry :=
  {lte_id := 5, hash := 20, refcnt := 1, original_size := 9,
   staging_file_name := some 2, num_allocated_fds := 8, num_opened_fds := 1,
   fds := [none, some holeFd, none, none, none, none, none, none]}

/-- A staged entry (entry id 0) with one open handle, for the by-fd
truncate scenario. -/
def stagedSoloEntry : lookup_table_entry :=
  {lte_id := 0, hash := 10, refcnt := 1, original_size := 42,
   staging_file_name := some 2, num_allocated_fds := 8, num_opened_fds := 1,
   fds := [some {fd_id := 4, idx := 0, staging_fd := 9, dentry := some 0,
                 lte := 0}, none, none, none, none, none, none, none]}

/-- Mount state for the by-fd truncate scenario. -/
def stagedState : MountState :=
  {dentries := [archDentry], lookup_table := [stagedSoloEntry]}

/-- A close oracle that always succeeds. -/
def closeAlwaysOk : Int → Option Int := fun _ => none

/-- The state at which the embedded wimfs_open crashes in the
failed-staging-open scenario: the catalog holds the repurposed entry, now
staged under placeholder hash 99, carrying the freshly allocated handle, and
the dentry hash slot was overwritten with 99. -/
def openCrashPost : MountState :=
  {dentries := [{archDentry with hash := 99}],
   lookup_table := [{lte_id := 0, hash := 99, refcnt := 1,
                     original_size := 42, staging_file_name := some 3,
                     num_allocated_fds := 8, num_opened_fds := 1,
                     fds := [some {fd_id := 50, idx := 0, staging_fd := -1,
                                   dentry := some 0, lte := 0},
                             none, none, none, none, none, none, none]}]}

/-- The name foo as a character list. -/
def fooName : List Char := ['f', 'o', 'o']

/-- A root directory with one existing child named foo. -/
def c9Root : Dnode := Dnode.mk [] true [Dnode.mk fooName false []]

/-- The path /foo as a character list. -/
def c9Path : List Char := ['/', 'f', 'o', 'o']

/-- The tree produced by the embedded wimfs_mknod on c9Root with path /foo:
a second child named foo was created next to the existing one. -/
def c9Post : Dnode := Dnode.mk [] true [Dnode.mk fooName false [],
                                        Dnode.mk fooName false []]

/-- The entry produced by a successful alloc_wimlib_fd on soloArchEntry
(fd array grown to 8 slots, fresh handle 50 at slot 0). -/
def c3AllocPost : lookup_table_entry :=
  {soloArchEntry with
     num_allocated_fds := 8
     num_opened_fds := 1
     fds := [some {fd_id := 50, idx := 0, staging_fd := -1, dentry := none,
                   lte := 0}, none, none, none, none, none, none, none]}

/-- The handle allocated by that call. -/
def c3AllocFd : wimlib_fd :=
  {fd_id := 50, idx := 0, staging_fd := -1, dentry := none, lte := 0}

/-- The entry produced by closing holeFd on holeEntry. -/
def c3ClosePost : lookup_table_entry :=
  {holeEntry with
     num_opened_fds := 0
     fds := [none, none, none, none, none, none, none, none]}

/-- A dentry in a second hard link group sharing content hash 10. -/
def c3dB : dentry := {archDentry with hard_link := 1}

/-- An open handle on the shared entry, owned by the first dentry. -/
def c3Fd : wimlib_fd :=
  {fd_id := 8, idx := 0, staging_fd := -1, dentry := some 0, lte := 0}

/-- The shared entry (refcnt 2, both link groups) with that one handle. -/
def c3OldEntry : lookup_table_entry :=
  {sharedArchEntry with
     num_allocated_fds := 8
     num_opened_fds := 1
     fds := [some c3Fd, none, none, none, none, none, none, none]}

/-- The handle after the split transferred it to entry 1 at index 0. -/
def c3MovedFd : wimlib_fd := {c3Fd with lte := 1, idx := 0}

/-- The new entry created by the split. -/
def c3NewEntry : lookup_table_entry :=
  {lte_id := 1, hash := 99, refcnt := 1, original_size := 42,
   staging_file_name := some 3, num_allocated_fds := 1, num_opened_fds := 1,
   fds := [some c3MovedFd]}

/-- The old entry after the split. -/
def c3OldPost : lookup_table_entry :=
  {c3OldEntry with
     refcnt := 1
     num_opened_fds := 0
     fds := [none, none, none, none, none, none, none, none]}

/-- A SHA1 oracle that hashes every staging file to 77. -/
def sha1Const : Nat → Except Int Nat := fun _ => Except.ok 77

/-- A catalog holding only the staged entry, for the insert case of the
commit rehash. -/
def c6TblInsert : List lookup_table_entry := [stagedSoloEntry]

/-- An archive-backed entry already carrying hash 77, for the dedup case. -/
def c6Existing : lookup_table_entry :=
  {lte_id := 9, hash := 77, refcnt := 3, original_size := 8,
   staging_file_name := none, num_allocated_fds := 0, num_opened_fds := 0,
   fds := []}

/-- A catalog holding the staged entry and an entry already under the new
hash, for the dedup case of the commit rehash. -/
def c6TblDedup : List lookup_table_entry := [stagedSoloEntry, c6Existing]

/-- A staging-read oracle returning zero bytes (unused on archive reads). -/
def zeroRead : Nat → Nat → CResult Nat := fun _ _ => CResult.ok 0

/-- The state after a successful by-path truncate of the staged file to
size 5 at clock 777. -/
def c7PathPost : MountState :=
  {dentries := [dentry_update_all_timestamps 777 archDentry],
   lookup_table := [{stagedSoloEntry with original_size := 5}]}

/-- A dentry whose hash has no catalog entry (a zero-length file). -/
def emptyHashDentry : dentry := {archDentry with hash := 55}

/-- A state holding only that empty file. -/
def emptyFileState : MountState :=
  {dentries := [emptyHashDentry], lookup_table := []}

/-- The repurposed entry as it stands in the catalog at the moment the
failed staging open crashes the open callback. -/
def c10NewEntry : lookup_table_entry :=
  {lte_id := 0, hash := 99, refcnt := 1, original_size := 42,
   staging_file_name := some 3, num_allocated_fds := 8, num_opened_fds := 1,
   fds := [some {fd_id := 50, idx := 0, staging_fd := -1, dentry := some 0,
                 lte := 0}, none, none, none, none, none, none, none]}

/-- Claim C1: staging divergence on an archive-backed entry whose refcount
exceeds the hard-link-group size is claimed to create a new entry and move
exactly the matching open handles into it.  Evaluation of the embedded code
at a reachable input (refcount 2, link group size 1, no open handles, as
after a truncate of a deduplicated unopened file): the transfer loop has no
bound on its index and stops only after moving a handle, so with zero
matching handles it reads past the end of the fd array and the operation
crashes instead of completing with an empty transfer. -/
theorem c1_split_with_no_matching_open_handles_crashes :
    dentry_link_group_size [archDentry] archDentry = 1 ∧
    sharedArchEntry.refcnt = 2 ∧ sharedArchEntry.num_opened_fds = 0 ∧
    sharedArchEntry.staging_file_name = none ∧
    extract_resource_to_staging_dir [archDentry] [sharedArchEntry] archDentry
      (some sharedArchEntry) 7 1 99 3 true true = CResult.crash := by
  decide

/-- Claim C2: the refcount invariant (every entry refcount equals the number
of referring dentry streams) is claimed to hold after every completed
operation, truncate included.  Evaluation of the embedded code: starting
from a state satisfying the invariant, a by-path truncate of an
archive-backed file completes successfully, but wimfs_truncate never writes
the new placeholder hash into the dentry hash slot, so the rekeyed catalog
entry (hash 99, refcount 1) is referenced by no stream and the invariant is
false afterwards. -/
theorem c2_refcnt_invariant_broken_by_truncate_divergence :
    refcntHolds soloState = true ∧
    wimfs_truncate soloState 0 5 777 1 99 3 true true true =
      CResult.ok truncPost ∧
    refcntHolds truncPost = false := by
  decide

/-- Claim C4: before commit-time rehashing every open staging fd is claimed
to be closed.  Evaluation of the embedded close_lte_fds at a reachable entry
(two handles opened, the one at slot 0 closed again, so the remaining open
staging fd 7 sits at slot 1 while num_opened_fds is 1): the loop bound is
num_opened_fds rather than num_allocated_fds, so the scan stops before
slot 1, closes nothing, and still reports success. -/
theorem c4_close_lte_fds_misses_open_staging_fd :
    openStagingFds holeEntry = [7] ∧
    close_lte_fds closeAlwaysOk holeEntry = CResult.ok [] := by
  decide

/-- Claim C5: the staging directory is claimed to be removed recursively in
every case on unmount of a read-write mount.  Evaluation of the embedded
wimfs_destroy with commit requested and a failing chdir to the working
directory: the code jumps to the done label with status WIMLIB_ERR_NOTDIR
and delete_staging_dir is never invoked (second component false). -/
theorem c5_staging_dir_not_removed_when_chdir_fails :
    wimfs_destroy true true false 0 true = (WIMLIB_ERR_NOTDIR, false) := by
  decide

/-- Claim C9: mknod on a non-ADS path whose final component names an existing
child is claimed to fail with the exists error and leave the tree unchanged.
Evaluation of the embedded code at a root already holding a child foo and
path /foo: the duplicate check passes the whole path string (not the
basename) to get_dentry_child_with_name, no child is ever named by a string
containing a slash, so the check never fires and a second child foo is
created instead of returning -EEXIST. -/
theorem c9_mknod_existing_name_not_detected :
    path_basename c9Path = fooName ∧
    (get_dentry_child_with_name c9Root fooName).isSome = true ∧
    wimfs_mknod c9Root c9Path true = CResult.ok c9Post := by
  constructor
  · rfl
  constructor
  · rfl
  · rfl

/-- Claim C7, counterexample: the claim says every successful truncate, the
by-fd form included, refreshes all four dentry timestamps.  A successful
embedded wimfs_ftruncate at clock 777 leaves the mount state with the
dentry timestamps still (1, 2, 3, 4) while the entry size is updated: the
by-fd callback contains no timestamp code at all. -/
theorem c7_ftruncate_timestamps_counterexample :
    wimfs_ftruncate stagedState 0 5 777 true =
      CResult.ok {dentries := [archDentry],
                  lookup_table := [{stagedSoloEntry with original_size := 5}]} ∧
    timestampsOf archDentry = (1, 2, 3, 4) := by
  decide

/-- Claim C10, counterexample: the claim says that when the staging-file open
fails after a successful divergence, the open callback returns the negated
errno.  Evaluation of the embedded code on a one-file state with the open
oracle failing: the callback instead dies on the fatal wimlib_assert inside
close_wimlib_fd (the entry is staged while the staging fd of the handle is
still -1), so no error code is ever returned; the state at the crash shows
the divergence was indeed not rolled back. -/
theorem c10_open_failure_crashes_counterexample :
    wimfs_open soloState 0 true true 50 1 99 3 true true none 13
      closeAlwaysOk = (CResult.crash, openCrashPost) ∧
    (wimfs_open soloState 0 true true 50 1 99 3 true true none 13
      closeAlwaysOk).fst.isErr = false := by
  decide

/-- Claim C8: a read on a handle backed by an archive resource returns the
overflow error exactly when the requested offset strictly exceeds the
original size of the resource; otherwise, when the archive resource reader
succeeds, it returns min(size, original_size - offset) bytes, and a request
at offset equal to the size returns 0 bytes. -/
theorem c8_archive_read_bounds (sr : Nat → Nat → CResult Nat)
    (read_res_ok : Bool) (fd : wimlib_fd) (lte : lookup_table_entry)
    (size offset : Nat) (harch : lte.staging_file_name = none) :
    (wimfs_read sr read_res_ok (some (fd, lte)) size offset =
        CResult.err (-EOVERFLOW) ↔ offset > lte.original_size) ∧
    (offset ≤ lte.original_size → read_res_ok = true →
      wimfs_read sr read_res_ok (some (fd, lte)) size offset =
        CResult.ok (min size (lte.original_size - offset))) ∧
    (offset = lte.original_size → read_res_ok = true →
      wimfs_read sr read_res_ok (some (fd, lte)) size offset =
        CResult.ok 0) := by
  simp only [wimfs_read, harch]
  by_cases hov : offset > lte.original_size
  · simp only [if_pos hov]
    refine ⟨by simp [hov], fun hle _ => absurd hov (by omega),
            fun heq _ => absurd hov (by omega)⟩
  · simp only [if_neg hov]
    refine ⟨?_, fun hle hro => by simp [hro], fun heq hro => by simp [hro, heq]⟩
    constructor
    · intro h
      split at h <;> simp_all [EIO_val, EOVERFLOW]
    · intro h
      exact absurd h hov

/-- Witness for claim C8: the read bounds instantiated on the archive-backed
entry of size 42 at offset 40 with request size 10 (a short read of 2
bytes). -/
theorem c8_archive_read_bounds_witness :
    (wimfs_read zeroRead true (some (holeFd, soloArchEntry)) 10 40 =
        CResult.err (-EOVERFLOW) ↔ 40 > soloArchEntry.original_size) ∧
    (40 ≤ soloArchEntry.original_size → true = true →
      wimfs_read zeroRead true (some (holeFd, soloArchEntry)) 10 40 =
        CResult.ok (min 10 (soloArchEntry.original_size - 40))) ∧
    (40 = soloArchEntry.original_size → true = true →
      wimfs_read zeroRead true (some (holeFd, soloArchEntry)) 10 40 =
        CResult.ok 0) :=
  c8_archive_read_bounds zeroRead true holeFd soloArchEntry 10 40 rfl

/-- Reading back the slot just written: helper about List.set. -/
theorem getq_set_same {α : Type} (l : List α) (i : Nat) (x y : α)
    (h : l.get? i = some x) : (l.set i y).get? i = some y := by
  induction l generalizing i with
  | nil => simp at h
  | cons a t ih =>
    cases i with
    | zero => rfl
    | succ n =>
      simp only [List.get?] at h
      simpa using ih n h

/-- Unlinking the entry found under a hash key shortens the catalog by one. -/
theorem lookup_removeByHash_length (tbl : List lookup_table_entry) (h0 : Nat)
    (lte : lookup_table_entry) (h : __lookup_resource tbl h0 = some lte) :
    (removeByHash tbl h0).length + 1 = tbl.length := by
  induction tbl with
  | nil => simp [__lookup_resource] at h
  | cons e r ih =>
    by_cases he : e.hash = h0
    · simp [removeByHash, he]
    · rw [__lookup_resource, List.find?_cons_of_neg _ (by simp [he])] at h
      simp only [removeByHash, if_neg he, List.length_cons]
      rw [ih h]

/-- Bumping a refcount does not change the size of the catalog. -/
theorem bumpRefcnt_length (tbl : List lookup_table_entry) (h0 : Nat) :
    (bumpRefcnt tbl h0).length = tbl.length := by
  induction tbl with
  | nil => rfl
  | cons e r ih =>
    by_cases he : e.hash = h0
    · simp [bumpRefcnt, he]
    · simp [bumpRefcnt, he, ih]

/-- After bumping, the entry found under the key carries the incremented
refcount. -/
theorem lookup_bumpRefcnt (tbl : List lookup_table_entry) (h0 : Nat)
    (ex : lookup_table_entry) (h : __lookup_resource tbl h0 = some ex) :
    __lookup_resource (bumpRefcnt tbl h0) h0 =
      some {ex with refcnt := ex.refcnt + 1} := by
  induction tbl with
  | nil => simp [__lookup_resource] at h
  | cons e r ih =>
    by_cases he : e.hash = h0
    · rw [__lookup_resource, List.find?_cons_of_pos _ (by simp [he])] at h
      cases h
      rw [bumpRefcnt, if_pos he, __lookup_resource,
          List.find?_cons_of_pos _ (by simp [he])]
    · rw [__lookup_resource, List.find?_cons_of_neg _ (by simp [he])] at h
      rw [bumpRefcnt, if_neg he, __lookup_resource,
          List.find?_cons_of_neg _ (by simp [he])]
      exact ih h

/-- Claim C6: during commit, a staged effective stream is rehashed and both
the dentry hash slot (the returned slot value, written back into the dentry
by calculate_sha1sum_for_staging_file) and the entry hash become the new
hash; if an entry with the new hash already exists in the catalog the staged
entry is freed (the catalog shrinks by one) and the existing entry refcount
is incremented, otherwise the staged entry is reinserted under the new hash
(the catalog size is unchanged).  The second part instantiates this on the
whole per-dentry function for a dentry with no ADS entries. -/
theorem c6_commit_rehash_dedup :
    (∀ sha1 tbl slot lte p nh,
       __lookup_resource tbl slot = some lte →
       lte.staging_file_name = some p →
       sha1 p = Except.ok nh →
       ∃ tbl2, sha1_step sha1 tbl slot = Except.ok (nh, tbl2) ∧
         ((∃ ex, __lookup_resource (removeByHash tbl slot) nh = some ex ∧
             __lookup_resource tbl2 nh =
               some {ex with refcnt := ex.refcnt + 1} ∧
             tbl2.length + 1 = tbl.length)
          ∨ (__lookup_resource (removeByHash tbl slot) nh = none ∧
             __lookup_resource tbl2 nh = some {lte with hash := nh} ∧
             tbl2.length = tbl.length))) ∧
    (∀ sha1 d tbl lte p nh,
       d.ads_hashes = [] →
       __lookup_resource tbl d.hash = some lte →
       lte.staging_file_name = some p →
       sha1 p = Except.ok nh →
       ∃ d2 tbl2, calculate_sha1sum_for_staging_file sha1 d tbl =
           Except.ok (d2, tbl2) ∧ d2.hash = nh ∧ d2.ads_hashes = [] ∧
           sha1_step sha1 tbl d.hash = Except.ok (nh, tbl2)) := by
  have step_spec : ∀ (sha1 : Nat → Except Int Nat) tbl slot lte p nh,
      __lookup_resource tbl slot = some lte →
      lte.staging_file_name = some p →
      sha1 p = Except.ok nh →
      ∃ tbl2, sha1_step sha1 tbl slot = Except.ok (nh, tbl2) ∧
        ((∃ ex, __lookup_resource (removeByHash tbl slot) nh = some ex ∧
            __lookup_resource tbl2 nh =
              some {ex with refcnt := ex.refcnt + 1} ∧
            tbl2.length + 1 = tbl.length)
         ∨ (__lookup_resource (removeByHash tbl slot) nh = none ∧
            __lookup_resource tbl2 nh = some {lte with hash := nh} ∧
            tbl2.length = tbl.length)) := by
    intro sha1 tbl slot lte p nh hl hs hh
    unfold sha1_step
    rw [hl]
    simp only
    rw [hs]
    simp only
    rw [hh]
    simp only
    cases hex : __lookup_resource (removeByHash tbl slot) nh with
    | some ex =>
      refine ⟨_, rfl, Or.inl ⟨ex, rfl, lookup_bumpRefcnt _ _ _ hex, ?_⟩⟩
      rw [bumpRefcnt_length]
      exact lookup_removeByHash_length _ _ _ hl
    | none =>
      refine ⟨_, rfl, Or.inr ⟨rfl, ?_, ?_⟩⟩
      · rw [__lookup_resource, List.find?_cons_of_pos _ (by simp)]
      · simp only [List.length_cons]
        exact lookup_removeByHash_length _ _ _ hl
  refine ⟨step_spec, ?_⟩
  intro sha1 d tbl lte p nh hads hl hs hh
  obtain ⟨tbl2, hstep, _⟩ := step_spec sha1 tbl d.hash lte p nh hl hs hh
  refine ⟨{d with hash := nh, ads_hashes := []}, tbl2, ?_, rfl, rfl, hstep⟩
  unfold calculate_sha1sum_for_staging_file streamHashes
  rw [hads]
  unfold sha1_loop
  rw [hstep]
  simp only
  rfl

/-- Witness for claim C6: the per-stream step on a staged entry hashing to
77, once with an existing catalog entry under 77 (dedup) and once without
(reinsertion), and the whole function on the dentry owning that stream. -/
theorem c6_commit_rehash_dedup_witness :
    (∃ tbl2, sha1_step sha1Const c6TblDedup 10 = Except.ok (77, tbl2) ∧
       ((∃ ex, __lookup_resource (removeByHash c6TblDedup 10) 77 = some ex ∧
           __lookup_resource tbl2 77 =
             some {ex with refcnt := ex.refcnt + 1} ∧
           tbl2.length + 1 = c6TblDedup.length)
        ∨ (__lookup_resource (removeByHash c6TblDedup 10) 77 = none ∧
           __lookup_resource tbl2 77 = some {stagedSoloEntry with hash := 77} ∧
           tbl2.length = c6TblDedup.length))) ∧
    (∃ tbl2, sha1_step sha1Const c6TblInsert 10 = Except.ok (77, tbl2) ∧
       ((∃ ex, __lookup_resource (removeByHash c6TblInsert 10) 77 = some ex ∧
           __lookup_resource tbl2 77 =
             some {ex with refcnt := ex.refcnt + 1} ∧
           tbl2.length + 1 = c6TblInsert.length)
        ∨ (__lookup_resource (removeByHash c6TblInsert 10) 77 = none ∧
           __lookup_resource tbl2 77 = some {stagedSoloEntry with hash := 77} ∧
           tbl2.length = c6TblInsert.length))) ∧
    (∃ d2 tbl2, calculate_sha1sum_for_staging_file sha1Const archDentry
        c6TblDedup = Except.ok (d2, tbl2) ∧ d2.hash = 77 ∧
        d2.ads_hashes = [] ∧
        sha1_step sha1Const c6TblDedup archDentry.hash =
          Except.ok (77, tbl2)) :=
  ⟨c6_commit_rehash_dedup.1 sha1Const c6TblDedup 10 stagedSoloEntry 2 77
     (by decide) rfl rfl,
   c6_commit_rehash_dedup.1 sha1Const c6TblInsert 10 stagedSoloEntry 2 77
     (by decide) rfl rfl,
   c6_commit_rehash_dedup.2 sha1Const archDentry c6TblDedup stagedSoloEntry
     2 77 rfl (by decide) rfl rfl⟩

/-- A successful slot allocation leaves identity, staging binding and size
of the entry unchanged and hands out a handle with staging fd -1. -/
theorem allocFirstFree_ok_facts (nfid : Nat) (lte lte1 : lookup_table_entry)
    (fd0 : wimlib_fd) (h : allocFirstFree nfid lte = CResult.ok (lte1, fd0)) :
    fd0.staging_fd = -1 ∧ lte1.lte_id = lte.lte_id ∧
    lte1.staging_file_name = lte.staging_file_name ∧
    lte1.original_size = lte.original_size := by
  unfold allocFirstFree at h
  split at h
  · simp at h
  · simp only [CResult.ok.injEq, Prod.mk.injEq] at h
    obtain ⟨hl, hf⟩ := h
    subst hl
    subst hf
    simp

/-- The same facts for the full alloc_wimlib_fd, through the growth step. -/
theorem alloc_wimlib_fd_ok_facts (nfid : Nat) (mem : Bool)
    (lte lte1 : lookup_table_entry) (fd0 : wimlib_fd)
    (h : alloc_wimlib_fd nfid mem lte = CResult.ok (lte1, fd0)) :
    fd0.staging_fd = -1 ∧ lte1.lte_id = lte.lte_id ∧
    lte1.staging_file_name = lte.staging_file_name ∧
    lte1.original_size = lte.original_size := by
  unfold alloc_wimlib_fd at h
  split at h
  · split at h
    · simp at h
    · split at h
      · simp at h
      · have := allocFirstFree_ok_facts _ _ _ _ h
        simpa using this
  · split at h
    · simp at h
    · exact allocFirstFree_ok_facts _ _ _ _ h

/-- A successful staging divergence always returns an entry carrying the
staging path and the random placeholder hash, present in the returned
catalog. -/
theorem extract_ok_facts (dentries : List dentry)
    (tbl : List lookup_table_entry) (d : dentry)
    (old : Option lookup_table_entry) (size ni nh np : Nat) (io mem : Bool)
    (t : List lookup_table_entry) (n : lookup_table_entry)
    (h : extract_resource_to_staging_dir dentries tbl d old size ni nh np
           io mem = CResult.ok (t, n)) :
    n.staging_file_name = some np ∧ n.hash = nh ∧ n ∈ t := by
  unfold extract_resource_to_staging_dir at h
  split at h
  · simp at h
  · cases old with
    | some o =>
      simp only at h
      split at h
      · simp only [CResult.ok.injEq, Prod.mk.injEq] at h
        obtain ⟨ht, hn⟩ := h
        subst ht
        subst hn
        exact ⟨rfl, rfl, List.mem_cons_self _ _⟩
      · split at h
        · simp at h
        · split at h
          · simp at h
          · split at h
            · simp at h
            · split at h
              · simp at h
              · simp only [CResult.ok.injEq, Prod.mk.injEq] at h
                obtain ⟨ht, hn⟩ := h
                subst ht
                subst hn
                exact ⟨rfl, rfl, List.mem_cons_self _ _⟩
    | none =>
      simp only at h
      split at h
      · simp at h
      · simp only [CResult.ok.injEq, Prod.mk.injEq] at h
        obtain ⟨ht, hn⟩ := h
        subst ht
        subst hn
        exact ⟨rfl, rfl, List.mem_cons_self _ _⟩

/-- Claim C10, amended: when open-for-write successfully triggers staging
divergence but the subsequent open of the staging file fails, the open
callback crashes on the fatal wimlib_assert inside close_wimlib_fd (the
entry is staged while the staging fd of the handle is still -1) instead of
returning the negated errno, and the divergence is not rolled back: the
final state still holds the staged entry with its placeholder hash in the
catalog, and the dentry hash slot keeps the placeholder hash. -/
theorem c10_divergence_not_rolled_back_amended
    (st : MountState) (di : Nat) (d : dentry) (lte lte1 : lookup_table_entry)
    (fd0 : wimlib_fd) (tbl2 : List lookup_table_entry)
    (nl : lookup_table_entry) (nfid ni nh np : Nat) (io mem : Bool)
    (oerr : Int) (clo : Int → Option Int)
    (h1 : st.dentries.get? di = some d)
    (h2 : __lookup_resource st.lookup_table d.hash = some lte)
    (h3 : lte.staging_file_name = none)
    (h6 : alloc_wimlib_fd nfid mem lte = CResult.ok (lte1, fd0))
    (h7 : extract_resource_to_staging_dir st.dentries
            (replaceById st.lookup_table
              (open_fd_registered lte1 fd0 di).1.lte_id
              (open_fd_registered lte1 fd0 di).1)
            d (some (open_fd_registered lte1 fd0 di).1)
            (open_fd_registered lte1 fd0 di).1.original_size
            ni nh np io mem = CResult.ok (tbl2, nl)) :
    wimfs_open st di true true nfid ni nh np io mem none oerr clo =
      (CResult.crash,
       {dentries := st.dentries.set di {d with hash := nl.hash},
        lookup_table := tbl2}) ∧
    nl ∈ tbl2 ∧ nl.staging_file_name = some np ∧ nl.hash = nh := by
  obtain ⟨hfd, hid, hstag, hsz⟩ := alloc_wimlib_fd_ok_facts _ _ _ _ _ h6
  obtain ⟨hnp, hnh, hmem⟩ := extract_ok_facts _ _ _ _ _ _ _ _ _ _ _ _ h7
  refine ⟨?_, hmem, hnp, hnh⟩
  have hstag2 : (open_fd_registered lte1 fd0 di).1.staging_file_name = none := by
    simp [open_fd_registered, hstag, h3]
  have hfd2 : (open_fd_registered lte1 fd0 di).2.staging_fd = -1 := by
    simp [open_fd_registered, hfd]
  have hclose : close_wimlib_fd clo (nl)
      (open_fd_registered lte1 fd0 di).2 = CResult.crash := by
    unfold close_wimlib_fd
    by_cases hz : nl.num_opened_fds = 0
    · rw [if_pos hz]
    · rw [if_neg hz, if_pos (by simp [hnp]), if_pos hfd2]
  unfold wimfs_open
  rw [h1]
  simp only
  rw [h2]
  simp only
  unfold wimfs_open_alloc_and_stage
  rw [h6]
  simp only
  rw [if_pos (⟨trivial, hstag2⟩ :
        True ∧ (open_fd_registered lte1 fd0 di).1.staging_file_name = none)]
  rw [h1]
  simp only
  rw [h7]
  simp only
  unfold wimfs_open_staging
  rw [hnp]
  simp only
  rw [hclose]

/-- Witness for claim C10, amended: the crash-without-rollback instantiated
on the one-file state with the staging open failing. -/
theorem c10_divergence_not_rolled_back_amended_witness :
    wimfs_open soloState 0 true true 50 1 99 3 true true none 13
        closeAlwaysOk =
      (CResult.crash,
       {dentries := soloState.dentries.set 0
                      {archDentry with hash := c10NewEntry.hash},
        lookup_table := [c10NewEntry]}) ∧
    c10NewEntry ∈ [c10NewEntry] ∧
    c10NewEntry.staging_file_name = some 3 ∧ c10NewEntry.hash = 99 :=
  c10_divergence_not_rolled_back_amended soloState 0 archDentry soloArchEntry
    c3AllocPost c3AllocFd [c10NewEntry] c10NewEntry 50 1 99 3 true true 13
    closeAlwaysOk (by decide) (by decide) rfl (by decide) (by decide)

/-- Freshly zeroed slots satisfy the slot check at any offset. -/
theorem slotsOk_replicate (eid : Nat) (n : Nat) : ∀ i,
    slotsOk eid i (List.replicate n none) = true := by
  induction n with
  | zero => intro i; rfl
  | succ m ih => intro i; simpa [List.replicate, slotsOk] using ih (i + 1)

/-- The slot check splits over an append, shifting the offset. -/
theorem slotsOk_append_of (eid : Nat) (a b : List (Option wimlib_fd)) :
    ∀ i, slotsOk eid i a = true → slotsOk eid (i + a.length) b = true →
    slotsOk eid i (a ++ b) = true := by
  induction a with
  | nil => intro i _ hb; simpa using hb
  | cons s rest ih =>
    intro i ha hb
    cases s with
    | none =>
      simp only [slotsOk] at ha
      simp only [List.cons_append, slotsOk]
      exact ih (i + 1) ha (by simpa [Nat.add_assoc, Nat.add_comm 1] using hb)
    | some fd =>
      simp only [slotsOk, Bool.and_eq_true] at ha
      simp only [List.cons_append, slotsOk, Bool.and_eq_true]
      exact ⟨ha.1, ih (i + 1) ha.2 (by simpa [Nat.add_assoc, Nat.add_comm 1] using hb)⟩

/-- Clearing any slot preserves the slot check. -/
theorem slotsOk_set_none (eid : Nat) (l : List (Option wimlib_fd)) :
    ∀ i p, slotsOk eid i l = true → slotsOk eid i (l.set p none) = true := by
  induction l with
  | nil => intro i p h; simpa using h
  | cons s rest ih =>
    intro i p h
    cases p with
    | zero =>
      cases s with
      | none => simpa [List.set, slotsOk] using h
      | some fd =>
        simp only [slotsOk, Bool.and_eq_true] at h
        simpa [List.set, slotsOk] using h.2
    | succ q =>
      cases s with
      | none =>
        simp only [slotsOk] at h
        simpa [List.set, slotsOk] using ih (i + 1) q h
      | some fd =>
        simp only [slotsOk, Bool.and_eq_true] at h
        simp only [List.set, slotsOk, Bool.and_eq_true]
        exact ⟨h.1, ih (i + 1) q h.2⟩

/-- Writing a handle whose back-pointer and index fit its position
preserves the slot check. -/
theorem slotsOk_set_fd (eid : Nat) (l : List (Option wimlib_fd))
    (fd : wimlib_fd) :
    ∀ i p, slotsOk eid i l = true → fd.lte = eid → fd.idx = i + p →
    slotsOk eid i (l.set p (some fd)) = true := by
  induction l with
  | nil => intro i p h _ _; simpa using h
  | cons s rest ih =>
    intro i p h hlte hidx
    cases p with
    | zero =>
      have hrest : slotsOk eid (i + 1) rest = true := by
        cases s with
        | none => simpa [slotsOk] using h
        | some g =>
          simp only [slotsOk, Bool.and_eq_true] at h
          exact h.2
      simp [List.set, slotsOk, hlte, hidx, hrest]
    | succ q =>
      cases s with
      | none =>
        simp only [slotsOk] at h
        simpa [List.set, slotsOk] using
          ih (i + 1) q h hlte (by omega)
      | some g =>
        simp only [slotsOk, Bool.and_eq_true] at h
        simp only [List.set, slotsOk, Bool.and_eq_true]
        exact ⟨h.1, ih (i + 1) q h.2 hlte (by omega)⟩

/-- A completed transfer leaves the old fd array at its original length. -/
theorem transfer_fds_old_len (dentries : List dentry) (hl new_id : Nat)
    (slots : List (Option wimlib_fd)) :
    ∀ j k o n, transfer_fds dentries hl new_id slots j k = some (o, n) →
    o.length = slots.length := by
  induction slots with
  | nil => intro j k o n h; simp [transfer_fds] at h
  | cons s rest ih =>
    intro j k o n h
    cases s with
    | none =>
      rw [transfer_fds] at h
      cases hr : transfer_fds dentries hl new_id rest j k with
      | none => rw [hr] at h; simp at h
      | some p =>
        obtain ⟨o1, n1⟩ := p
        rw [hr] at h
        simp only [Option.some.injEq, Prod.mk.injEq] at h
        obtain ⟨ho, hn⟩ := h
        subst ho
        simp [ih j k o1 n1 hr]
    | some fd =>
      rw [transfer_fds] at h
      cases hm : fd_matches_group dentries hl fd with
      | none => rw [hm] at h; simp at h
      | some b =>
        rw [hm] at h
        simp only at h
        cases b with
        | false =>
          rw [if_neg (by simp)] at h
          cases hr : transfer_fds dentries hl new_id rest j k with
          | none => rw [hr] at h; simp at h
          | some p =>
            obtain ⟨o1, n1⟩ := p
            rw [hr] at h
            simp only [Option.some.injEq, Prod.mk.injEq] at h
            obtain ⟨ho, hn⟩ := h
            subst ho
            simp [ih j k o1 n1 hr]
        | true =>
          rw [if_pos rfl] at h
          by_cases hjk : j + 1 = k
          · rw [if_pos hjk] at h
            simp only [Option.some.injEq, Prod.mk.injEq] at h
            obtain ⟨ho, hn⟩ := h
            subst ho
            simp
          · rw [if_neg hjk] at h
            cases hr : transfer_fds dentries hl new_id rest (j + 1) k with
            | none => rw [hr] at h; simp at h
            | some p =>
              obtain ⟨o1, n1⟩ := p
              rw [hr] at h
              simp only [Option.some.injEq, Prod.mk.injEq] at h
              obtain ⟨ho, hn⟩ := h
              subst ho
              simp [ih (j + 1) k o1 n1 hr]

/-- A completed transfer moves exactly k - j handles. -/
theorem transfer_fds_new_len (dentries : List dentry) (hl new_id : Nat)
    (slots : List (Option wimlib_fd)) :
    ∀ j k o n, transfer_fds dentries hl new_id slots j k = some (o, n) →
    n.length + j = k := by
  induction slots with
  | nil => intro j k o n h; simp [transfer_fds] at h
  | cons s rest ih =>
    intro j k o n h
    cases s with
    | none =>
      rw [transfer_fds] at h
      cases hr : transfer_fds dentries hl new_id rest j k with
      | none => rw [hr] at h; simp at h
      | some p =>
        obtain ⟨o1, n1⟩ := p
        rw [hr] at h
        simp only [Option.some.injEq, Prod.mk.injEq] at h
        obtain ⟨ho, hn⟩ := h
        subst hn
        exact ih j k o1 n1 hr
    | some fd =>
      rw [transfer_fds] at h
      cases hm : fd_matches_group dentries hl fd with
      | none => rw [hm] at h; simp at h
      | some b =>
        rw [hm] at h
        simp only at h
        cases b with
        | false =>
          rw [if_neg (by simp)] at h
          cases hr : transfer_fds dentries hl new_id rest j k with
          | none => rw [hr] at h; simp at h
          | some p =>
            obtain ⟨o1, n1⟩ := p
            rw [hr] at h
            simp only [Option.some.injEq, Prod.mk.injEq] at h
            obtain ⟨ho, hn⟩ := h
            subst hn
            exact ih j k o1 n1 hr
        | true =>
          rw [if_pos rfl] at h
          by_cases hjk : j + 1 = k
          · rw [if_pos hjk] at h
            simp only [Option.some.injEq, Prod.mk.injEq] at h
            obtain ⟨ho, hn⟩ := h
            subst hn
            simp only [List.length_singleton]
            omega
          · rw [if_neg hjk] at h
            cases hr : transfer_fds dentries hl new_id rest (j + 1) k with
            | none => rw [hr] at h; simp at h
            | some p =>
              obtain ⟨o1, n1⟩ := p
              rw [hr] at h
              simp only [Option.some.injEq, Prod.mk.injEq] at h
              obtain ⟨ho, hn⟩ := h
              subst hn
              have := ih (j + 1) k o1 n1 hr
              simp only [List.length_cons]
              omega

/-- The moved handles carry the new entry identity and compact indices
starting at j. -/
theorem transfer_fds_new_ok (dentries : List dentry) (hl new_id : Nat)
    (slots : List (Option wimlib_fd)) :
    ∀ j k o n, transfer_fds dentries hl new_id slots j k = some (o, n) →
    slotsOk new_id j (n.map some) = true := by
  induction slots with
  | nil => intro j k o n h; simp [transfer_fds] at h
  | cons s rest ih =>
    intro j k o n h
    cases s with
    | none =>
      rw [transfer_fds] at h
      cases hr : transfer_fds dentries hl new_id rest j k with
      | none => rw [hr] at h; simp at h
      | some p =>
        obtain ⟨o1, n1⟩ := p
        rw [hr] at h
        simp only [Option.some.injEq, Prod.mk.injEq] at h
        obtain ⟨ho, hn⟩ := h
        subst hn
        exact ih j k o1 n1 hr
    | some fd =>
      rw [transfer_fds] at h
      cases hm : fd_matches_group dentries hl fd with
      | none => rw [hm] at h; simp at h
      | some b =>
        rw [hm] at h
        simp only at h
        cases b with
        | false =>
          rw [if_neg (by simp)] at h
          cases hr : transfer_fds dentries hl new_id rest j k with
          | none => rw [hr] at h; simp at h
          | some p =>
            obtain ⟨o1, n1⟩ := p
            rw [hr] at h
            simp only [Option.some.injEq, Prod.mk.injEq] at h
            obtain ⟨ho, hn⟩ := h
            subst hn
            exact ih j k o1 n1 hr
        | true =>
          rw [if_pos rfl] at h
          by_cases hjk : j + 1 = k
          · rw [if_pos hjk] at h
            simp only [Option.some.injEq, Prod.mk.injEq] at h
            obtain ⟨ho, hn⟩ := h
            subst hn
            simp [slotsOk]
          · rw [if_neg hjk] at h
            cases hr : transfer_fds dentries hl new_id rest (j + 1) k with
            | none => rw [hr] at h; simp at h
            | some p =>
              obtain ⟨o1, n1⟩ := p
              rw [hr] at h
              simp only [Option.some.injEq, Prod.mk.injEq] at h
              obtain ⟨ho, hn⟩ := h
              subst hn
              simp only [List.map_cons, slotsOk, Bool.and_eq_true]
              exact ⟨⟨by simp, by simp⟩, ih (j + 1) k o1 n1 hr⟩

/-- Survivor slots of the old array still satisfy the slot check: a slot is
either cleared or untouched. -/
theorem transfer_fds_old_ok (dentries : List dentry) (hl new_id : Nat)
    (slots : List (Option wimlib_fd)) :
    ∀ j k o n i eid, transfer_fds dentries hl new_id slots j k = some (o, n) →
    slotsOk eid i slots = true → slotsOk eid i o = true := by
  induction slots with
  | nil => intro j k o n i eid h _; simp [transfer_fds] at h
  | cons s rest ih =>
    intro j k o n i eid h hs
    cases s with
    | none =>
      rw [transfer_fds] at h
      cases hr : transfer_fds dentries hl new_id rest j k with
      | none => rw [hr] at h; simp at h
      | some p =>
        obtain ⟨o1, n1⟩ := p
        rw [hr] at h
        simp only [Option.some.injEq, Prod.mk.injEq] at h
        obtain ⟨ho, hn⟩ := h
        subst ho
        simp only [slotsOk] at hs
        simpa [slotsOk] using ih j k o1 n1 (i + 1) eid hr hs
    | some fd =>
      rw [transfer_fds] at h
      cases hm : fd_matches_group dentries hl fd with
      | none => rw [hm] at h; simp at h
      | some b =>
        rw [hm] at h
        simp only at h
        simp only [slotsOk, Bool.and_eq_true] at hs
        cases b with
        | false =>
          rw [if_neg (by simp)] at h
          cases hr : transfer_fds dentries hl new_id rest j k with
          | none => rw [hr] at h; simp at h
          | some p =>
            obtain ⟨o1, n1⟩ := p
            rw [hr] at h
            simp only [Option.some.injEq, Prod.mk.injEq] at h
            obtain ⟨ho, hn⟩ := h
            subst ho
            simp only [slotsOk, Bool.and_eq_true]
            exact ⟨hs.1, ih j k o1 n1 (i + 1) eid hr hs.2⟩
        | true =>
          rw [if_pos rfl] at h
          by_cases hjk : j + 1 = k
          · rw [if_pos hjk] at h
            simp only [Option.some.injEq, Prod.mk.injEq] at h
            obtain ⟨ho, hn⟩ := h
            subst ho
            simpa [slotsOk] using hs.2
          · rw [if_neg hjk] at h
            cases hr : transfer_fds dentries hl new_id rest (j + 1) k with
            | none => rw [hr] at h; simp at h
            | some p =>
              obtain ⟨o1, n1⟩ := p
              rw [hr] at h
              simp only [Option.some.injEq, Prod.mk.injEq] at h
              obtain ⟨ho, hn⟩ := h
              subst ho
              simpa [slotsOk] using ih (j + 1) k o1 n1 (i + 1) eid hr hs.2

/-- Removal by identity only drops entries. -/
theorem mem_removeById (tbl : List lookup_table_entry) (i : Nat)
    (e : lookup_table_entry) (h : e ∈ removeById tbl i) : e ∈ tbl := by
  induction tbl with
  | nil => simp [removeById] at h
  | cons x r ih =>
    by_cases hx : x.lte_id = i
    · rw [removeById, if_pos hx] at h
      exact List.mem_cons_of_mem _ h
    · rw [removeById, if_neg hx] at h
      rcases List.mem_cons.mp h with h1 | h2
      · exact h1 ▸ List.mem_cons_self _ _
      · exact List.mem_cons_of_mem _ (ih h2)

/-- Every member of the table after an in-place update is the new entry or
an old member. -/
theorem mem_replaceById (tbl : List lookup_table_entry) (i : Nat)
    (x2 e : lookup_table_entry) (h : e ∈ replaceById tbl i x2) :
    e = x2 ∨ e ∈ tbl := by
  induction tbl with
  | nil => simp [replaceById] at h
  | cons x r ih =>
    by_cases hx : x.lte_id = i
    · rw [replaceById, if_pos hx] at h
      rcases List.mem_cons.mp h with h1 | h2
      · exact Or.inl h1
      · exact Or.inr (List.mem_cons_of_mem _ h2)
    · rw [replaceById, if_neg hx] at h
      rcases List.mem_cons.mp h with h1 | h2
      · exact Or.inr (h1 ▸ List.mem_cons_self _ _)
      · rcases ih h2 with h3 | h4
        · exact Or.inl h3
        · exact Or.inr (List.mem_cons_of_mem _ h4)

/-- The slot-allocation tail of alloc_wimlib_fd preserves the fd-slot
invariant. -/
theorem allocFirstFree_slotInv (nfid : Nat) (lte lte2 : lookup_table_entry)
    (fd : wimlib_fd) (hlen : lte.fds.length = lte.num_allocated_fds)
    (hok : slotsOk lte.lte_id 0 lte.fds = true)
    (h : allocFirstFree nfid lte = CResult.ok (lte2, fd)) :
    slotInvB lte2 = true := by
  unfold allocFirstFree at h
  split at h
  · simp at h
  next i hfind =>
    simp only [CResult.ok.injEq, Prod.mk.injEq] at h
    obtain ⟨hl, hf⟩ := h
    subst hl
    unfold slotInvB
    simp only [Bool.and_eq_true, beq_iff_eq]
    constructor
    · simpa using hlen
    · exact slotsOk_set_fd lte.lte_id lte.fds _ 0 i hok rfl (by simp)

/-- The closing tail of close_wimlib_fd preserves the fd-slot invariant of
a surviving entry. -/
theorem close_finish_inv (lte lte2 : lookup_table_entry) (fd : wimlib_fd)
    (hinv : slotInvB lte = true)
    (h : close_finish lte fd = CResult.ok (some lte2)) :
    slotInvB lte2 = true := by
  unfold close_finish at h
  split at h
  · simp at h
  · simp only [CResult.ok.injEq, Option.some.injEq] at h
    subst h
    unfold slotInvB at hinv ⊢
    simp only [Bool.and_eq_true, beq_iff_eq] at hinv ⊢
    exact ⟨by simpa using hinv.1,
           slotsOk_set_none lte.lte_id lte.fds 0 fd.idx hinv.2⟩

/-- Claim C3: the fd-slot invariant (every slot below num_allocated_fds is
null or holds a handle whose back-pointer is the entry and whose stored
index is its slot) is preserved by every operation that allocates, closes or
transfers a handle: by alloc_wimlib_fd, by close_wimlib_fd when the entry
survives (a freed entry has no slots left to satisfy), and by the
hard-link-group split of extract_resource_to_staging_dir, for every entry of
the resulting catalog, the new entry included. -/
theorem c3_fd_slot_invariant_preserved :
    (∀ nfid mem lte lte2 fd, slotInvB lte = true →
       alloc_wimlib_fd nfid mem lte = CResult.ok (lte2, fd) →
       slotInvB lte2 = true) ∧
    (∀ clo lte fd lte2, slotInvB lte = true →
       close_wimlib_fd clo lte fd = CResult.ok (some lte2) →
       slotInvB lte2 = true) ∧
    (∀ dentries tbl d o size ni nh np io mem tbl2 nl,
       slotInvB o = true → (∀ e ∈ tbl, slotInvB e = true) →
       extract_resource_to_staging_dir dentries tbl d (some o) size ni nh np
         io mem = CResult.ok (tbl2, nl) →
       ∀ e ∈ tbl2, slotInvB e = true) := by
  refine ⟨?_, ?_, ?_⟩
  · intro nfid mem lte lte2 fd hinv h
    have hinv2 := hinv
    unfold slotInvB at hinv2
    simp only [Bool.and_eq_true, beq_iff_eq] at hinv2
    unfold alloc_wimlib_fd at h
    split at h
    · split at h
      · simp at h
      · split at h
        · simp at h
        · refine allocFirstFree_slotInv _ _ _ _ ?_ ?_ h
          · simp [hinv2.1]
          · refine slotsOk_append_of _ _ _ 0 hinv2.2 ?_
            exact slotsOk_replicate _ _ _
    · split at h
      · simp at h
      · exact allocFirstFree_slotInv _ _ _ _ hinv2.1 hinv2.2 h
  · intro clo lte fd lte2 hinv h
    unfold close_wimlib_fd at h
    split at h
    · simp at h
    · split at h
      · split at h
        · simp at h
        · split at h
          · simp at h
          · exact close_finish_inv _ _ _ hinv h
      · exact close_finish_inv _ _ _ hinv h
  · intro dentries tbl d o size ni nh np io mem tbl2 nl hinvO hall h
    unfold extract_resource_to_staging_dir at h
    split at h
    · simp at h
    · simp only at h
      split at h
      · simp only [CResult.ok.injEq, Prod.mk.injEq] at h
        obtain ⟨ht, hn⟩ := h
        subst ht
        intro e he
        rcases List.mem_cons.mp he with h1 | h2
        · subst h1
          unfold slotInvB at hinvO ⊢
          simpa using hinvO
        · exact hall e (mem_removeById _ _ _ h2)
      · split at h
        · simp at h
        · split at h
          · simp at h
          · cases hcount : count_transferable_fds dentries d.hard_link o.fds with
            | none => rw [hcount] at h; simp at h
            | some k =>
              rw [hcount] at h
              simp only at h
              cases htrans : transfer_fds dentries d.hard_link ni o.fds 0 k with
              | none => rw [htrans] at h; simp at h
              | some pr =>
                obtain ⟨oslots, moved⟩ := pr
                rw [htrans] at h
                simp only [CResult.ok.injEq, Prod.mk.injEq] at h
                obtain ⟨ht, hn⟩ := h
                subst ht
                intro e he
                rcases List.mem_cons.mp he with h1 | h2
                · subst h1
                  unfold slotInvB
                  simp only [Bool.and_eq_true, beq_iff_eq]
                  constructor
                  · have := transfer_fds_new_len dentries d.hard_link ni
                      o.fds 0 k oslots moved htrans
                    simpa using this
                  · simpa using transfer_fds_new_ok dentries d.hard_link ni
                      o.fds 0 k oslots moved htrans
                · rcases mem_replaceById _ _ _ _ h2 with h3 | h4
                  · subst h3
                    unfold slotInvB at hinvO ⊢
                    simp only [Bool.and_eq_true, beq_iff_eq] at hinvO ⊢
                    constructor
                    · have := transfer_fds_old_len dentries d.hard_link ni
                        o.fds 0 k oslots moved htrans
                      simpa [this] using hinvO.1
                    · simpa using transfer_fds_old_ok dentries d.hard_link ni
                        o.fds 0 k oslots moved 0 o.lte_id htrans hinvO.2
                  · exact hall e h4

/-- Witness for claim C3: the invariant evaluated on the concrete results of
an allocation, a close, and a split that transfers one handle. -/
theorem c3_fd_slot_invariant_preserved_witness :
    slotInvB c3AllocPost = true ∧ slotInvB c3ClosePost = true ∧
    slotInvB c3NewEntry = true ∧ slotInvB c3OldPost = true := by
  refine ⟨?_, ?_, ?_, ?_⟩
  · exact c3_fd_slot_invariant_preserved.1 50 true soloArchEntry c3AllocPost
      c3AllocFd (by decide) (by decide)
  · exact c3_fd_slot_invariant_preserved.2.1 closeAlwaysOk holeEntry holeFd
      c3ClosePost (by decide) (by decide)
  · exact c3_fd_slot_invariant_preserved.2.2 [archDentry, c3dB] [c3OldEntry]
      archDentry c3OldEntry 42 1 99 3 true true [c3NewEntry, c3OldPost]
      c3NewEntry (by decide) (by decide) (by decide) c3NewEntry (by decide)
  · exact c3_fd_slot_invariant_preserved.2.2 [archDentry, c3dB] [c3OldEntry]
      archDentry c3OldEntry 42 1 99 3 true true [c3NewEntry, c3OldPost]
      c3NewEntry (by decide) (by decide) (by decide) c3OldPost (by decide)

/-- The entry found under a hash key is a member of the catalog. -/
theorem lookup_resource_mem (tbl : List lookup_table_entry) (h0 : Nat)
    (lte : lookup_table_entry) (h : __lookup_resource tbl h0 = some lte) :
    lte ∈ tbl := by
  induction tbl with
  | nil => simp [__lookup_resource] at h
  | cons e r ih =>
    by_cases he : e.hash = h0
    · rw [__lookup_resource, List.find?_cons_of_pos _ (by simp [he])] at h
      cases h
      exact List.mem_cons_self _ _
    · rw [__lookup_resource, List.find?_cons_of_neg _ (by simp [he])] at h
      exact List.mem_cons_of_mem _ (ih h)

/-- When some member carries the identity, the in-place update puts the new
entry into the catalog. -/
theorem mem_replaceById_self (tbl : List lookup_table_entry) (i : Nat)
    (x e : lookup_table_entry) (he : e ∈ tbl) (hid : e.lte_id = i) :
    x ∈ replaceById tbl i x := by
  induction tbl with
  | nil => simp at he
  | cons a r ih =>
    by_cases ha : a.lte_id = i
    · rw [replaceById, if_pos ha]
      exact List.mem_cons_self _ _
    · rw [replaceById, if_neg ha]
      rcases List.mem_cons.mp he with h1 | h2
      · exact absurd (h1 ▸ hid) ha
      · exact List.mem_cons_of_mem _ (ih h2)

/-- A successful staging divergence stamps the returned entry with the
requested size as its original_size (mount.c line 361). -/
theorem extract_ok_size_facts (dentries : List dentry)
    (tbl : List lookup_table_entry) (d : dentry)
    (old : Option lookup_table_entry) (size ni nh np : Nat) (io mem : Bool)
    (t : List lookup_table_entry) (n : lookup_table_entry)
    (h : extract_resource_to_staging_dir dentries tbl d old size ni nh np
           io mem = CResult.ok (t, n)) :
    n.original_size = size := by
  unfold extract_resource_to_staging_dir at h
  split at h
  · simp at h
  · cases old with
    | some o =>
      simp only at h
      split at h
      · simp only [CResult.ok.injEq, Prod.mk.injEq] at h
        obtain ⟨ht, hn⟩ := h
        subst hn
        rfl
      · split at h
        · simp at h
        · split at h
          · simp at h
          · split at h
            · simp at h
            · split at h
              · simp at h
              · simp only [CResult.ok.injEq, Prod.mk.injEq] at h
                obtain ⟨ht, hn⟩ := h
                subst hn
                rfl
    | none =>
      simp only at h
      split at h
      · simp at h
      · simp only [CResult.ok.injEq, Prod.mk.injEq] at h
        obtain ⟨ht, hn⟩ := h
        subst hn
        rfl

/-- Claim C7, amended: a successful by-path truncate of a file that has a
catalog entry refreshes all four dentry timestamps and updates the size
recorded for the stream: when already staged, the entry itself gets
original_size = size in place; when archive-backed, the divergence leaves a
staged entry carrying the new staging path and original_size = size in the
catalog.  A by-path truncate of an already-empty file (no catalog entry)
succeeds and leaves the state, hence every timestamp, unchanged; a
successful by-fd truncate updates only the original_size of the lookup
entry and leaves the dentries, hence all four timestamps, unchanged. -/
theorem c7_truncate_timestamps_amended :
    (∀ st di d lte size now ni nh np io mem st2,
       st.dentries.get? di = some d →
       __lookup_resource st.lookup_table d.hash = some lte →
       lte.staging_file_name.isSome = true →
       wimfs_truncate st di size now ni nh np io mem true = CResult.ok st2 →
       (st2.dentries.get? di).map timestampsOf = some (now, now, now, now) ∧
       {lte with original_size := size} ∈ st2.lookup_table) ∧
    (∀ st di d lte size now ni nh np io mem st2,
       st.dentries.get? di = some d →
       __lookup_resource st.lookup_table d.hash = some lte →
       lte.staging_file_name = none →
       wimfs_truncate st di size now ni nh np io mem true = CResult.ok st2 →
       (st2.dentries.get? di).map timestampsOf = some (now, now, now, now) ∧
       ∃ nl, nl ∈ st2.lookup_table ∧ nl.original_size = size ∧
         nl.staging_file_name = some np) ∧
    (∀ st di d size now ni nh np io mem,
       st.dentries.get? di = some d →
       __lookup_resource st.lookup_table d.hash = none →
       wimfs_truncate st di size now ni nh np io mem true = CResult.ok st) ∧
    (∀ st fd_lte size now lte,
       st.lookup_table.find? (fun e => e.lte_id == fd_lte) = some lte →
       wimfs_ftruncate st fd_lte size now true =
         CResult.ok {st with
           lookup_table := replaceById st.lookup_table fd_lte
                             {lte with original_size := size}}) := by
  refine ⟨?_, ?_, ?_, ?_⟩
  · intro st di d lte size now ni nh np io mem st2 h1 h2 hs htr
    unfold wimfs_truncate at htr
    rw [h1] at htr
    simp only at htr
    rw [h2] at htr
    simp only at htr
    rw [if_pos hs, if_neg (by simp)] at htr
    have h3 := CResult.ok.inj htr
    subst h3
    constructor
    · simp only [MountState.dentries]
      rw [getq_set_same st.dentries di d _ h1]
      simp [dentry_update_all_timestamps, timestampsOf]
    · exact mem_replaceById_self st.lookup_table lte.lte_id _ lte
        (lookup_resource_mem _ _ _ h2) rfl
  · intro st di d lte size now ni nh np io mem st2 h1 h2 hs htr
    unfold wimfs_truncate at htr
    rw [h1] at htr
    simp only at htr
    rw [h2] at htr
    simp only at htr
    rw [if_neg (by simp [hs])] at htr
    cases hE : extract_resource_to_staging_dir st.dentries st.lookup_table d
        (some lte) size ni nh np io mem with
    | crash => rw [hE] at htr; simp at htr
    | err e => rw [hE] at htr; simp at htr
    | ok p =>
      rw [hE] at htr
      obtain ⟨tbl2, n2⟩ := p
      simp only at htr
      have h3 := CResult.ok.inj htr
      subst h3
      constructor
      · simp only [MountState.dentries]
        rw [getq_set_same st.dentries di d _ h1]
        simp [dentry_update_all_timestamps, timestampsOf]
      · obtain ⟨hstag, hhash, hmem⟩ :=
          extract_ok_facts _ _ _ _ _ _ _ _ _ _ _ _ hE
        exact ⟨n2, hmem, extract_ok_size_facts _ _ _ _ _ _ _ _ _ _ _ _ hE,
               hstag⟩
  · intro st di d size now ni nh np io mem h1 h2
    unfold wimfs_truncate
    rw [h1]
    simp only
    rw [h2]
  · intro st fd_lte size now lte hf
    unfold wimfs_ftruncate
    rw [if_neg (by simp), hf]

/-- Witness for claim C7: the four amended statements instantiated on
concrete states (a staged file truncated by path at clock 777, with the
resized entry in the catalog; an archive-backed file truncated by path,
with the new staged entry of size 5; an empty file truncated by path; a
staged file truncated by fd). -/
theorem c7_truncate_timestamps_amended_witness :
    (((c7PathPost.dentries.get? 0).map timestampsOf =
        some (777, 777, 777, 777)) ∧
      {stagedSoloEntry with original_size := 5} ∈ c7PathPost.lookup_table) ∧
    (((truncPost.dentries.get? 0).map timestampsOf =
        some (777, 777, 777, 777)) ∧
      ∃ nl, nl ∈ truncPost.lookup_table ∧ nl.original_size = 5 ∧
        nl.staging_file_name = some 3) ∧
    (wimfs_truncate emptyFileState 0 5 777 1 99 3 true true true =
        CResult.ok emptyFileState) ∧
    (wimfs_ftruncate stagedState 0 5 777 true =
        CResult.ok {stagedState with
          lookup_table := replaceById stagedState.lookup_table 0
                            {stagedSoloEntry with original_size := 5}}) :=
  ⟨c7_truncate_timestamps_amended.1 stagedState 0 archDentry stagedSoloEntry
     5 777 1 99 3 true true c7PathPost (by decide) (by decide) (by decide)
     (by decide),
   c7_truncate_timestamps_amended.2.1 soloState 0 archDentry soloArchEntry
     5 777 1 99 3 true true truncPost (by decide) (by decide) (by decide)
     (by decide),
   c7_truncate_timestamps_amended.2.2.1 emptyFileState 0 emptyHashDentry
     5 777 1 99 3 true true (by decide) (by decide),
   c7_truncate_timestamps_amended.2.2.2 stagedState 0 5 777 stagedSoloEntry
     (by decide)⟩
